import Mathlib

/-!
Verification of the SMP work-stealing dispatcher (src/src/smp.rs).

The dispatcher `SmpScheduler<SMP, S, L, H>` keeps one mutex-guarded per-hart
scheduler in `local_queues : Vec<Mutex<L, S>>` and routes every operation to
the slot of the calling hart, except for the steal path of `pick_next_task`,
which scans the other slots with a non-blocking `try_lock`.

Two embeddings are developed below.

1. A functional embedding (`Smp` namespace): the dispatcher state is the list
   of per-hart scheduler states; each Rust method becomes a function taking
   the hart identity (the value `H::hart_id()` returns for that call) and, for
   `pick_next_task`, a predicate `busy` describing which remote mutexes are
   held by other harts at the moment of each `try_lock`.  A panic (index out
   of range, failed assertion, `unwrap` of `None`) is modelled as the `none`
   result of an outer `Option`.

2. A small-step interleaving embedding (`SmpSys` namespace) for the
   concurrency claims: every mutex-protected critical section of the Rust
   code is one atomic transition, mutex acquisition is a separate transition,
   and a `try_lock` observes the lock bit of the instant it executes.
-/

namespace Smp

/-- The external per-hart scheduling-policy capability (the `BaseScheduler`
trait bound `S` of `SmpScheduler`): `init`, `add_task`, `remove_task`,
`pick_next_task`, `put_prev_task`, `task_tick`, `set_priority` over an opaque
task type `τ` and a policy state `Q`.  Mutating Rust methods become
state-passing functions. -/
structure Policy (τ Q : Type) where
  initQ : Q → Q
  add_task : Q → τ → Q
  remove_task : Q → τ → Option τ × Q
  pick_next_task : Q → Option τ × Q
  put_prev_task : Q → τ → Bool → Q
  task_tick : Q → τ → Bool × Q
  set_priority : Q → τ → Int → Bool × Q

variable {τ Q : Type}

/-- Modelled from the spec: the external FIFO policy (`FifoScheduler` of the
`scheduler` crate, an external collaborator per the spec): the queue is a
list, `add_task`/`put_prev_task` push to the back, `pick_next_task` pops the
front, `remove_task` removes and returns the task if present and reports
not-found otherwise, `task_tick` never requests rescheduling and
`set_priority` is not supported. -/
def fifoPolicy : Policy ℕ (List ℕ) where
  initQ q := q
  add_task q t := q ++ [t]
  remove_task q t := if t ∈ q then (some t, q.erase t) else (none, q)
  pick_next_task q :=
    match q with
    | [] => (none, [])
    | t :: r => (some t, r)
  put_prev_task q t _ := q ++ [t]
  task_tick q _ := (false, q)
  set_priority q _ _ := (false, q)

/-- The loop body of `SmpScheduler::new`: `SMP` times, pop the last scheduler
of the input vector (`unwrap` of an empty pop is a panic, hence `none`) and
push it onto `local_queues`. -/
def newLoop : ℕ → List Q → List Q → Option (List Q)
  | 0, _, acc => some acc
  | n + 1, s, acc =>
    match s.getLast? with
    | none => none
    | some q => newLoop n s.dropLast (acc ++ [q])

/-- `SmpScheduler::new(schedulers)`: assert that the input vector has length
`SMP` (a failed assertion is a panic, hence `none`), then build
`local_queues` by popping from the back of the input. -/
def new (SMP : ℕ) (schedulers : List Q) : Option (List Q) :=
  if schedulers.length = SMP then newLoop SMP schedulers [] else none

/-- `SmpScheduler::init`: lock every slot in index order and initialize the
contained scheduler.  The state carries no initialized flag. -/
def init (P : Policy τ Q) (qs : List Q) : List Q :=
  qs.map P.initQ

/-- `SmpScheduler::add_task`: index the calling hart's slot (out of range is a
panic), lock it and insert the task there. -/
def add_task (P : Policy τ Q) (qs : List Q) (h : ℕ) (t : τ) : Option (List Q) :=
  match qs[h]? with
  | none => none
  | some q => some (qs.set h (P.add_task q t))

/-- `SmpScheduler::remove_task`: index the calling hart's slot, lock it and
delegate removal to its policy; the policy's answer is returned unchanged. -/
def remove_task (P : Policy τ Q) (qs : List Q) (h : ℕ) (t : τ) :
    Option (Option τ × List Q) :=
  match qs[h]? with
  | none => none
  | some q =>
    let r := P.remove_task q t
    some (r.1, qs.set h r.2)

/-- The steal loop of `SmpScheduler::pick_next_task`, one recursive step per
iteration of `for i in 0..SMP`: skip `i == hart_id`, `try_lock` slot `i`
(which fails exactly when `busy i` holds), and on acquisition ask that slot's
policy for a task, returning the first one produced.  The fuel argument is
the loop bound `SMP`, which equals `qs.length`. -/
def stealLoopF (P : Policy τ Q) (h : ℕ) (busy : ℕ → Bool) :
    ℕ → ℕ → List Q → Option τ × List Q
  | 0, _, qs => (none, qs)
  | fuel + 1, i, qs =>
    match qs[i]? with
    | none => (none, qs)
    | some q =>
      if decide (i ≠ h) && !busy i then
        match P.pick_next_task q with
        | (some t, q2) => (some t, qs.set i q2)
        | (none, q2) => stealLoopF P h busy fuel (i + 1) (qs.set i q2)
      else stealLoopF P h busy fuel (i + 1) qs

/-- The steal scan started at index 0 with loop bound `qs.length` (the length
of `local_queues` is the constant `SMP`). -/
def stealLoop (P : Policy τ Q) (h : ℕ) (busy : ℕ → Bool) (qs : List Q) :
    Option τ × List Q :=
  stealLoopF P h busy qs.length 0 qs

/-- `SmpScheduler::pick_next_task`: lock the calling hart's own slot
(blocking) and ask its policy for a task; if it yields one return it,
otherwise run the steal scan over the other slots. -/
def pick_next_task (P : Policy τ Q) (qs : List Q) (h : ℕ) (busy : ℕ → Bool) :
    Option (Option τ × List Q) :=
  match qs[h]? with
  | none => none
  | some q =>
    match P.pick_next_task q with
    | (some t, q2) => some (some t, qs.set h q2)
    | (none, q2) => some (stealLoop P h busy (qs.set h q2))

/-- `SmpScheduler::put_prev_task`: lock the calling hart's own slot and hand
the previously running task back to its policy with the preempt flag. -/
def put_prev_task (P : Policy τ Q) (qs : List Q) (h : ℕ) (t : τ) (preempt : Bool) :
    Option (List Q) :=
  match qs[h]? with
  | none => none
  | some q => some (qs.set h (P.put_prev_task q t preempt))

/-- `SmpScheduler::task_tick`: lock the calling hart's own slot and forward
the tick to its policy, returning the reschedule flag. -/
def task_tick (P : Policy τ Q) (qs : List Q) (h : ℕ) (t : τ) :
    Option (Bool × List Q) :=
  match qs[h]? with
  | none => none
  | some q =>
    let r := P.task_tick q t
    some (r.1, qs.set h r.2)

/-- `SmpScheduler::set_priority`: lock the calling hart's own slot and forward
the priority change to its policy, returning the applied flag. -/
def set_priority (P : Policy τ Q) (qs : List Q) (h : ℕ) (t : τ) (prio : Int) :
    Option (Bool × List Q) :=
  match qs[h]? with
  | none => none
  | some q =>
    let r := P.set_priority q t prio
    some (r.1, qs.set h r.2)

/-- The order in which the steal scan visits slots: ascending hart indices
below `N`, with the callers own index and the busy (contended) ones removed. -/
def scanOrder (N h : ℕ) (busy : ℕ → Bool) : List ℕ :=
  (List.range N).filter (fun j => decide (j ≠ h) && !busy j)

/-- Follows the spec text (section 4.2, step 3 of `pick_next_task`): visit the
given slot indices in order; at each, ask the policy for a task and return
the first task produced, leaving all later slots unvisited; a slot that
yields nothing keeps its (possibly policy-updated) state and the scan moves
on; the scan ends with no task when the index list is exhausted. -/
def specScan (P : Policy τ Q) : List ℕ → List Q → Option τ × List Q
  | [], qs => (none, qs)
  | i :: rest, qs =>
    match qs[i]? with
    | none => specScan P rest qs
    | some q =>
      match P.pick_next_task q with
      | (some t, q2) => (some t, qs.set i q2)
      | (none, q2) => specScan P rest (qs.set i q2)

/-- Setting an index of a list to the value already stored there is the
identity. -/
theorem set_self : ∀ (l : List Q) (i : ℕ) (q : Q), l[i]? = some q → l.set i q = l
  | [], _, _, h => by simp at h
  | _ :: _, 0, _, h => by simp_all
  | a :: l, i + 1, q, h => by
    simp only [List.getElem?_cons_succ] at h
    simp [set_self l i q h]

/-- Popping the last element `n` times collects the last `n` elements of the
input, most recent first: the reversal of its final segment. -/
theorem newLoop_take : ∀ (n : ℕ) (s acc : List Q), n ≤ s.length →
    newLoop n s acc = some (acc ++ s.reverse.take n) := by
  intro n
  induction n with
  | zero => intro s acc _; simp [newLoop]
  | succ n ih =>
    intro s acc hn
    rcases List.eq_nil_or_concat s with rfl | ⟨l, a, rfl⟩
    · simp at hn
    · rw [List.concat_eq_append] at hn ⊢
      have hlen : n ≤ l.length := by
        simp at hn; omega
      simp only [newLoop, List.getLast?_concat, List.dropLast_concat]
      rw [ih l (acc ++ [a]) hlen]
      simp

/-- On an input of the asserted length, `new` produces the reversal of the
input vector. -/
theorem new_eq_reverse (SMP : ℕ) (schedulers : List Q)
    (hlen : schedulers.length = SMP) :
    new SMP schedulers = some schedulers.reverse := by
  rw [new, if_pos hlen, newLoop_take SMP schedulers [] (by omega)]
  have : schedulers.reverse.take SMP = schedulers.reverse := by
    apply List.take_of_length_le
    simp [hlen]
  rw [this]
  simp

/-- The steal loop, run with loop bound `fuel` from index `i`, equals the
spec-side scan over the ascending indices from `i` below `qs.length` that
differ from the caller and are not busy. -/
theorem stealLoopF_eq_specScan (P : Policy τ Q) (h : ℕ) (busy : ℕ → Bool) :
    ∀ (fuel i : ℕ) (qs : List Q), qs.length - i ≤ fuel →
      stealLoopF P h busy fuel i qs =
        specScan P ((List.range' i (qs.length - i)).filter
          (fun j => decide (j ≠ h) && !busy j)) qs := by
  intro fuel
  induction fuel with
  | zero =>
    intro i qs hle
    have h0 : qs.length - i = 0 := by omega
    rw [h0]
    simp [stealLoopF, specScan]
  | succ fuel ih =>
    intro i qs hle
    by_cases hi : i < qs.length
    · have hsome : qs[i]? = some qs[i] := List.getElem?_eq_getElem hi
      have hn : qs.length - i = (qs.length - (i + 1)) + 1 := by omega
      rw [hn, List.range'_succ i (qs.length - (i + 1)) 1, List.filter_cons]
      by_cases hc : ¬i = h ∧ busy i = false
      · rcases hp : P.pick_next_task qs[i] with ⟨t0, q2⟩
        cases t0 with
        | some t => simp [stealLoopF, hsome, hc, hp, specScan]
        | none =>
          have hrec := ih (i + 1) (qs.set i q2) (by simp only [List.length_set]; omega)
          simp [stealLoopF, hsome, hc, hp, specScan, hrec, List.length_set]
      · have hrec := ih (i + 1) qs (by omega)
        simp [stealLoopF, hsome, hc, specScan, hrec]
    · have hnone : qs[i]? = none := List.getElem?_eq_none (by omega)
      have h0 : qs.length - i = 0 := by omega
      rw [h0]
      simp [stealLoopF, hnone, specScan, List.range']

/-- Claim C9: `SmpScheduler::new` builds `local_queues` by repeatedly popping
the back of the input vector, so the slot of hart `i` holds the scheduler at
input index `SMP - 1 - i`: the input is stored in reverse order. -/
theorem new_reverses_input (SMP : ℕ) (schedulers : List Q)
    (hlen : schedulers.length = SMP) :
    new SMP schedulers = some schedulers.reverse ∧
    ∀ i, i < SMP → schedulers.reverse[i]? = schedulers[SMP - 1 - i]? := by
  refine ⟨new_eq_reverse SMP schedulers hlen, ?_⟩
  intro i hi
  rw [List.getElem?_reverse (by omega), hlen]

/-- Witness for C9 at a concrete input: two schedulers (represented by the
marker states 10 and 20) end up swapped. -/
theorem new_reverses_input_w :
    [(10 : ℕ), 20].length = 2 ∧ new 2 [(10 : ℕ), 20] = some [20, 10] :=
  ⟨rfl, (new_reverses_input 2 [(10 : ℕ), 20] rfl).1⟩

/-- Claim C10: `SmpScheduler::new` panics (failed `assert_eq`) exactly when
the input vector length differs from `SMP`; on the matching length it always
succeeds and the dispatcher has exactly `SMP` slots. -/
theorem new_length_check (SMP : ℕ) (schedulers : List Q) :
    (schedulers.length ≠ SMP → new SMP schedulers = none) ∧
    (schedulers.length = SMP →
      ∃ qs, new SMP schedulers = some qs ∧ qs.length = SMP) := by
  constructor
  · intro hne
    rw [new, if_neg hne]
  · intro hlen
    exact ⟨schedulers.reverse, new_eq_reverse SMP schedulers hlen, by simp [hlen]⟩

/-- Witness for C10: a length-1 input with `SMP = 2` panics; a length-2 input
with `SMP = 2` is accepted and yields 2 slots. -/
theorem new_length_check_w :
    new 2 [(10 : ℕ)] = none ∧
    ∃ qs, new 2 [(10 : ℕ), 20] = some qs ∧ qs.length = 2 :=
  ⟨(new_length_check 2 [(10 : ℕ)]).1 (by decide),
   (new_length_check 2 [(10 : ℕ), 20]).2 rfl⟩

/-- Claim C7: every dispatcher operation indexes `local_queues[hart_id]`
first, so a hart identity at or beyond the slot count is an out-of-range
index, which panics (modelled as `none`) instead of wrapping around. -/
theorem hart_id_out_of_range_panics (P : Policy τ Q) (qs : List Q) (h : ℕ)
    (t : τ) (preempt : Bool) (prio : Int) (busy : ℕ → Bool)
    (hh : qs.length ≤ h) :
    add_task P qs h t = none ∧
    remove_task P qs h t = none ∧
    pick_next_task P qs h busy = none ∧
    put_prev_task P qs h t preempt = none ∧
    task_tick P qs h t = none ∧
    set_priority P qs h t prio = none := by
  have hnone : qs[h]? = none := List.getElem?_eq_none hh
  refine ⟨?_, ?_, ?_, ?_, ?_, ?_⟩ <;>
    simp [add_task, remove_task, pick_next_task, put_prev_task, task_tick,
      set_priority, hnone]

/-- Witness for C7: hart identity 4 on a 4-slot FIFO dispatcher makes every
operation panic. -/
theorem hart_id_out_of_range_panics_w :
    add_task fifoPolicy [[], [], [], []] 4 9 = none ∧
    remove_task fifoPolicy [[], [], [], []] 4 9 = none ∧
    pick_next_task fifoPolicy [[], [], [], []] 4 (fun _ => false) = none ∧
    put_prev_task fifoPolicy [[], [], [], []] 4 9 true = none ∧
    task_tick fifoPolicy [[], [], [], []] 4 9 = none ∧
    set_priority fifoPolicy [[], [], [], []] 4 9 0 = none :=
  hart_id_out_of_range_panics fifoPolicy [[], [], [], []] 4 9 true 0
    (fun _ => false) (by decide)

/-- Claim C1: when the local pick yields nothing, `pick_next_task` equals the
spec-side scan over `scanOrder`: the ascending hart indices starting from 0
with the caller and the busy (try_lock-contended) slots removed, each visited
at most once, stopping at the first slot whose policy yields a task (later
slots are untouched by `specScan` by construction).  The remaining conjuncts
state the properties of the visit order explicitly. -/
theorem pick_steal_scan_order (P : Policy τ Q) (qs : List Q) (h : ℕ)
    (busy : ℕ → Bool) (qh q2 : Q) (hq : qs[h]? = some qh)
    (hp : P.pick_next_task qh = (none, q2)) :
    pick_next_task P qs h busy =
      some (specScan P (scanOrder qs.length h busy) (qs.set h q2)) ∧
    (scanOrder qs.length h busy).Pairwise (fun a b => a < b) ∧
    h ∉ scanOrder qs.length h busy ∧
    (∀ i ∈ scanOrder qs.length h busy, i < qs.length ∧ busy i = false) ∧
    (scanOrder qs.length h busy).Nodup := by
  refine ⟨?_, ?_, ?_, ?_, ?_⟩
  · simp only [pick_next_task, hq, hp, stealLoop]
    rw [stealLoopF_eq_specScan P h busy (qs.set h q2).length 0 (qs.set h q2)
      (by omega)]
    simp [scanOrder, List.range_eq_range']
  · exact List.Pairwise.filter _ (List.pairwise_lt_range qs.length)
  · intro hmem
    simp [scanOrder, List.mem_filter] at hmem
  · intro i hmem
    simp only [scanOrder, List.mem_filter, List.mem_range] at hmem
    refine ⟨hmem.1, ?_⟩
    have := hmem.2
    simp at this
    exact this.2
  · exact List.Nodup.filter _ (List.nodup_range qs.length)

/-- Witness for C1: hart 0 with an empty local queue and no contention steals
the task 7 sitting in the queue of hart 1. -/
theorem pick_steal_scan_order_w :
    pick_next_task fifoPolicy [[], [7]] 0 (fun _ => false) =
      some (some 7, [[], []]) ∧
    0 ∉ scanOrder 2 0 (fun _ => false) := by
  have H := pick_steal_scan_order fifoPolicy [[], [7]] 0 (fun _ => false) [] []
    rfl rfl
  exact ⟨H.1.trans (by rfl), H.2.2.1⟩

/-- Claim C2: when the policy of the calling hart produces a task, that task
is returned, the only slot that changes is the callers own, and the result
does not depend on the lock state of any other slot (the steal path is never
entered). -/
theorem pick_local_first (P : Policy τ Q) (qs : List Q) (h : ℕ)
    (busy : ℕ → Bool) (qh q2 : Q) (t : τ) (hq : qs[h]? = some qh)
    (hp : P.pick_next_task qh = (some t, q2)) :
    pick_next_task P qs h busy = some (some t, qs.set h q2) ∧
    (∀ j, j ≠ h → (qs.set h q2)[j]? = qs[j]?) ∧
    (∀ busy2 : ℕ → Bool, pick_next_task P qs h busy2 = pick_next_task P qs h busy) := by
  refine ⟨?_, ?_, ?_⟩
  · simp [pick_next_task, hq, hp]
  · intro j hj
    exact List.getElem?_set_ne (Ne.symm hj)
  · intro busy2
    simp [pick_next_task, hq, hp]

/-- Witness for C2: hart 0 holds task 1 locally and returns it even though
every remote slot is locked; the queue of hart 1 is untouched. -/
theorem pick_local_first_w :
    pick_next_task fifoPolicy [[1], [2]] 0 (fun _ => true) =
      some (some 1, [[], [2]]) ∧
    ([[1], [2]].set 0 [])[1]? = [[1], [2]][1]? := by
  have H := pick_local_first fifoPolicy [[1], [2]] 0 (fun _ => true) [1] [] 1
    rfl rfl
  exact ⟨H.1, H.2.1 1 one_ne_zero⟩

/-- When every acquirable remote slot yields nothing and a yield-nothing pick
leaves the slot unchanged, the steal loop returns nothing and leaves the
whole dispatcher state unchanged. -/
theorem stealLoopF_none (P : Policy τ Q) (h : ℕ) (busy : ℕ → Bool)
    (qs : List Q)
    (hrem : ∀ (i : ℕ) (hi : i < qs.length), i ≠ h → busy i = false →
      P.pick_next_task qs[i] = (none, qs[i])) :
    ∀ fuel i, stealLoopF P h busy fuel i qs = (none, qs) := by
  intro fuel
  induction fuel with
  | zero => intro i; rfl
  | succ fuel ih =>
    intro i
    by_cases hi : i < qs.length
    · have hsome : qs[i]? = some qs[i] := List.getElem?_eq_getElem hi
      simp only [stealLoopF, hsome]
      by_cases hc : ¬i = h ∧ busy i = false
      · rw [hrem i hi hc.1 hc.2]
        have hset : qs.set i qs[i] = qs := set_self qs i qs[i] hsome
        simp [hc, hset, ih]
      · simp [hc, ih]
    · have hnone : qs[i]? = none := List.getElem?_eq_none (by omega)
      simp [stealLoopF, hnone]

/-- Claim C4: a `pick_next_task` call is a single pass (the visit order
enumerates each remote index at most once, in ascending order); when the
local pick and every acquirable remote pick yield nothing, the call returns
the ordinary empty result (`some (none, _)`: not a panic) with every queue
unchanged. -/
theorem pick_exhausted_none (P : Policy τ Q) (qs : List Q) (h : ℕ)
    (busy : ℕ → Bool) (qh : Q) (hq : qs[h]? = some qh)
    (hloc : P.pick_next_task qh = (none, qh))
    (hrem : ∀ (i : ℕ) (hi : i < qs.length), i ≠ h → busy i = false →
      P.pick_next_task qs[i] = (none, qs[i])) :
    pick_next_task P qs h busy = some (none, qs) ∧
    (scanOrder qs.length h busy).Nodup ∧
    (scanOrder qs.length h busy).Pairwise (fun a b => a < b) := by
  refine ⟨?_, List.Nodup.filter _ (List.nodup_range qs.length),
    List.Pairwise.filter _ (List.pairwise_lt_range qs.length)⟩
  have hset : qs.set h qh = qs := set_self qs h qh hq
  simp only [pick_next_task, hq, hloc, stealLoop, hset]
  rw [stealLoopF_none P h busy qs hrem qs.length 0]

/-- Witness for C4: two empty FIFO queues and no contention; the pick returns
the empty result and the state is unchanged. -/
theorem pick_exhausted_none_w :
    pick_next_task fifoPolicy [[], []] 0 (fun _ => false) =
      some (none, [[], []]) ∧
    (scanOrder 2 0 (fun _ => false)).Nodup := by
  have H := pick_exhausted_none fifoPolicy [[], []] 0 (fun _ => false) [] rfl rfl
    (by
      intro i hi hne hb
      have h2 : ([[], []] : List (List ℕ)).length = 2 := rfl
      rw [h2] at hi
      have : i = 1 := by omega
      subst this
      rfl)
  exact ⟨H.1, H.2.1⟩

/-- Claim C5: each of the five non-pick operations invoked by hart `h` is a
function of the callers own slot alone (the stated equations mention no slot
but `qs[h]`), and setting slot `h` leaves the contents of every other slot
unchanged. -/
theorem local_ops_frame (P : Policy τ Q) (qs : List Q) (h : ℕ) (qh : Q)
    (t : τ) (preempt : Bool) (prio : Int) (hq : qs[h]? = some qh) :
    add_task P qs h t = some (qs.set h (P.add_task qh t)) ∧
    remove_task P qs h t =
      some ((P.remove_task qh t).1, qs.set h (P.remove_task qh t).2) ∧
    put_prev_task P qs h t preempt =
      some (qs.set h (P.put_prev_task qh t preempt)) ∧
    task_tick P qs h t =
      some ((P.task_tick qh t).1, qs.set h (P.task_tick qh t).2) ∧
    set_priority P qs h t prio =
      some ((P.set_priority qh t prio).1, qs.set h (P.set_priority qh t prio).2) ∧
    ∀ (j : ℕ) (q2 : Q), j ≠ h → (qs.set h q2)[j]? = qs[j]? := by
  refine ⟨?_, ?_, ?_, ?_, ?_, ?_⟩
  · simp [add_task, hq]
  · simp [remove_task, hq]
  · simp [put_prev_task, hq]
  · simp [task_tick, hq]
  · simp [set_priority, hq]
  · intro j q2 hj
    exact List.getElem?_set_ne (Ne.symm hj)

/-- Witness for C5 on a concrete FIFO dispatcher: hart 0 operates on its own
slot only; slot 1 keeps its contents. -/
theorem local_ops_frame_w :
    add_task fifoPolicy [[1], [2]] 0 1 = some [[1, 1], [2]] ∧
    remove_task fifoPolicy [[1], [2]] 0 1 = some (some 1, [[], [2]]) ∧
    put_prev_task fifoPolicy [[1], [2]] 0 1 true = some [[1, 1], [2]] ∧
    task_tick fifoPolicy [[1], [2]] 0 1 = some (false, [[1], [2]]) ∧
    set_priority fifoPolicy [[1], [2]] 0 1 5 = some (false, [[1], [2]]) ∧
    ([[1], [2]].set 0 [9])[1]? = [[1], [2]][1]? := by
  have H := local_ops_frame fifoPolicy [[1], [2]] 0 [1] 1 true 5 rfl
  exact ⟨H.1, H.2.1, H.2.2.1, H.2.2.2.1, H.2.2.2.2.1,
    H.2.2.2.2.2 1 [9] one_ne_zero⟩

/-- Claim C6: `remove_task` on the FIFO instance returns the task when it is
in the callers own queue and reports not-found otherwise, leaving the state
untouched in the not-found case; a task residing only in a different harts
queue therefore yields `none`, and no other slot is ever modified. -/
theorem remove_task_local_only (qs : List (List ℕ)) (h : ℕ) (qh : List ℕ)
    (t : ℕ) (hq : qs[h]? = some qh) :
    (t ∉ qh → remove_task fifoPolicy qs h t = some (none, qs)) ∧
    (t ∈ qh →
      remove_task fifoPolicy qs h t = some (some t, qs.set h (qh.erase t))) ∧
    (∀ (j : ℕ) (q2 : List ℕ), j ≠ h → (qs.set h q2)[j]? = qs[j]?) := by
  refine ⟨?_, ?_, ?_⟩
  · intro hni
    have hset : qs.set h qh = qs := set_self qs h qh hq
    simp [remove_task, hq, fifoPolicy, hni, hset]
  · intro hin
    simp [remove_task, hq, fifoPolicy, hin]
  · intro j q2 hj
    exact List.getElem?_set_ne (Ne.symm hj)

/-- Witness for C6: task 2 sits in the queue of hart 1; hart 0 removing it
gets `none` with the state unchanged, while hart 0 removing its own task 1
succeeds. -/
theorem remove_task_local_only_w :
    remove_task fifoPolicy [[1], [2]] 0 2 = some (none, [[1], [2]]) ∧
    remove_task fifoPolicy [[1], [2]] 0 1 = some (some 1, [[], [2]]) := by
  have H := remove_task_local_only [[1], [2]] 0 [1] 2 rfl
  have H2 := remove_task_local_only [[1], [2]] 0 [1] 1 rfl
  exact ⟨H.1 (by decide), H2.2.1 (by decide)⟩

/-- Claim C8, counterexample: the dispatcher state produced by `new` carries
no initialized flag and no operation checks one; calling `add_task` on hart 0
directly on the state produced by `new 1` (with `init` never called) proceeds
normally and returns `some`, not the panic the claim requires. -/
theorem ops_before_init_fail_fast_cex :
    new 1 [([] : List ℕ)] = some [[]] ∧
    add_task fifoPolicy [([] : List ℕ)] 0 7 = some [[7]] := by
  exact ⟨rfl, rfl⟩

/-- Claim C8 as amended: calling a dispatcher operation before `init()` is
not detected: the state has no initialized flag, every operation on any state
with a valid hart identity returns a result (never the panic outcome), and
`init` itself only maps the policy initializer over the slots. -/
theorem ops_no_init_check (P : Policy τ Q) (qs : List Q) (h : ℕ) (qh : Q)
    (t : τ) (preempt : Bool) (prio : Int) (busy : ℕ → Bool)
    (hq : qs[h]? = some qh) :
    (add_task P qs h t).isSome ∧
    (remove_task P qs h t).isSome ∧
    (pick_next_task P qs h busy).isSome ∧
    (put_prev_task P qs h t preempt).isSome ∧
    (task_tick P qs h t).isSome ∧
    (set_priority P qs h t prio).isSome ∧
    init P qs = qs.map P.initQ := by
  refine ⟨?_, ?_, ?_, ?_, ?_, ?_, rfl⟩
  · simp [add_task, hq]
  · simp [remove_task, hq]
  · rcases hp : P.pick_next_task qh with ⟨t0, q2⟩
    cases t0 <;> simp [pick_next_task, hq, hp]
  · simp [put_prev_task, hq]
  · simp [task_tick, hq]
  · simp [set_priority, hq]

/-- Witness for the amended C8 on the state fresh from `new` (no `init`
call): all six operations proceed. -/
theorem ops_no_init_check_w :
    (add_task fifoPolicy [[]] 0 7).isSome ∧
    (remove_task fifoPolicy [[]] 0 7).isSome ∧
    (pick_next_task fifoPolicy [[]] 0 (fun _ => false)).isSome ∧
    (put_prev_task fifoPolicy [[]] 0 7 false).isSome ∧
    (task_tick fifoPolicy [[]] 0 7).isSome ∧
    (set_priority fifoPolicy [[]] 0 7 0).isSome := by
  have H := ops_no_init_check fifoPolicy [[]] 0 [] 7 false 0 (fun _ => false) rfl
  exact ⟨H.1, H.2.1, H.2.2.1, H.2.2.2.1, H.2.2.2.2.1, H.2.2.2.2.2.1⟩

end Smp

namespace SmpSys

/-!
Interleaved small-step semantics of the dispatcher, instantiated with the
FIFO policy (task handles are naturals, a queue is a list picked from the
front and pushed at the back).

Every mutex-protected critical section of `smp.rs` is one atomic transition
and every blocking `lock()` acquisition is its own transition, enabled only
while the lock bit is clear, so a remote `try_lock` executed while another
hart is inside a critical section of that slot observes the lock bit set and
fails.  No code in `smp.rs` ever holds a lock across two critical sections,
so transitions never carry a held lock.
-/

/-- The control point of one hart inside a dispatcher call.  `pickScan i`
and `pickStole i` carry the steal-loop index; the `Lock` states wait on the
callers own mutex; the `Crit` states are inside the critical section.  The
task being added or put back travels inside the control state. -/
inductive Ctl where
  | idle
  | pickLock
  | pickLocal
  | pickScan (i : ℕ)
  | pickStole (i : ℕ)
  | addLock (t : ℕ)
  | addCrit (t : ℕ)
  | remLock (t : ℕ)
  | remCrit (t : ℕ)
  | putLock (t : ℕ) (preempt : Bool)
  | putCrit (t : ℕ) (preempt : Bool)
  deriving DecidableEq

/-- Global state: per-slot FIFO queue contents, per-slot mutex bit, per-hart
control point, per-hart set of tasks currently owned by the hart (picked or
removed, not yet put back), and per-hart log of completed `pick_next_task`
results (most recent first). -/
structure Sys where
  slots : ℕ → List ℕ
  locked : ℕ → Bool
  ctl : ℕ → Ctl
  held : ℕ → List ℕ
  got : ℕ → List (Option ℕ)

/-- Tasks travelling inside a control state (an `add_task` or
`put_prev_task` argument between call start and queue insertion). -/
def ctlTasks : Ctl → Multiset ℕ
  | .idle => 0
  | .pickLock => 0
  | .pickLocal => 0
  | .pickScan _ => 0
  | .pickStole _ => 0
  | .addLock t => {t}
  | .addCrit t => {t}
  | .remLock _ => 0
  | .remCrit _ => 0
  | .putLock t _ => {t}
  | .putCrit t _ => {t}

/-- All task handles attributable to hart `h`: its queue, the tasks it owns,
and the task inside its control state. -/
def hartTasks (s : Sys) (h : ℕ) : Multiset ℕ :=
  (s.slots h : Multiset ℕ) + (s.held h : Multiset ℕ) + ctlTasks (s.ctl h)

/-- Every task handle present anywhere in an `N`-hart system. -/
def allTasks (N : ℕ) (s : Sys) : Multiset ℕ :=
  (Finset.range N).sum (hartTasks s)

/-- One atomic transition.  Callers follow the ownership discipline: an
added task is fresh and a put-back task is owned by the putting hart.  The
guards `hi`, `hne` of `stealSome`/`stealNone` restate facts established by
the only transition that enters `pickStole i`, namely `scanLock`. -/
inductive Step (N : ℕ) : Sys → Sys → Prop where
  | startPick (s : Sys) (h : ℕ) (hh : h < N) (hc : s.ctl h = Ctl.idle) :
      Step N s { s with ctl := Function.update s.ctl h Ctl.pickLock }
  | lockOwn (s : Sys) (h : ℕ) (hh : h < N) (hc : s.ctl h = Ctl.pickLock)
      (hl : s.locked h = false) :
      Step N s { s with locked := Function.update s.locked h true,
                        ctl := Function.update s.ctl h Ctl.pickLocal }
  | localPickSome (s : Sys) (h t : ℕ) (rest : List ℕ) (hh : h < N)
      (hc : s.ctl h = Ctl.pickLocal) (hs : s.slots h = t :: rest) :
      Step N s { s with slots := Function.update s.slots h rest,
                        locked := Function.update s.locked h false,
                        held := Function.update s.held h (t :: s.held h),
                        got := Function.update s.got h (some t :: s.got h),
                        ctl := Function.update s.ctl h Ctl.idle }
  | localPickNone (s : Sys) (h : ℕ) (hh : h < N) (hc : s.ctl h = Ctl.pickLocal)
      (hs : s.slots h = []) :
      Step N s { s with locked := Function.update s.locked h false,
                        ctl := Function.update s.ctl h (Ctl.pickScan 0) }
  | scanSkip (s : Sys) (h i : ℕ) (hh : h < N) (hc : s.ctl h = Ctl.pickScan i)
      (hi : i < N) (hskip : i = h ∨ s.locked i = true) :
      Step N s { s with ctl := Function.update s.ctl h (Ctl.pickScan (i + 1)) }
  | scanLock (s : Sys) (h i : ℕ) (hh : h < N) (hc : s.ctl h = Ctl.pickScan i)
      (hi : i < N) (hne : i ≠ h) (hl : s.locked i = false) :
      Step N s { s with locked := Function.update s.locked i true,
                        ctl := Function.update s.ctl h (Ctl.pickStole i) }
  | stealSome (s : Sys) (h i t : ℕ) (rest : List ℕ) (hh : h < N) (hi : i < N)
      (hne : i ≠ h) (hc : s.ctl h = Ctl.pickStole i) (hs : s.slots i = t :: rest) :
      Step N s { s with slots := Function.update s.slots i rest,
                        locked := Function.update s.locked i false,
                        held := Function.update s.held h (t :: s.held h),
                        got := Function.update s.got h (some t :: s.got h),
                        ctl := Function.update s.ctl h Ctl.idle }
  | stealNone (s : Sys) (h i : ℕ) (hh : h < N) (hi : i < N) (hne : i ≠ h)
      (hc : s.ctl h = Ctl.pickStole i) (hs : s.slots i = []) :
      Step N s { s with locked := Function.update s.locked i false,
                        ctl := Function.update s.ctl h (Ctl.pickScan (i + 1)) }
  | scanDone (s : Sys) (h i : ℕ) (hh : h < N) (hc : s.ctl h = Ctl.pickScan i)
      (hi : N ≤ i) :
      Step N s { s with got := Function.update s.got h (none :: s.got h),
                        ctl := Function.update s.ctl h Ctl.idle }
  | startAdd (s : Sys) (h t : ℕ) (hh : h < N) (hc : s.ctl h = Ctl.idle)
      (hfresh : t ∉ allTasks N s) :
      Step N s { s with ctl := Function.update s.ctl h (Ctl.addLock t) }
  | lockAdd (s : Sys) (h t : ℕ) (hh : h < N) (hc : s.ctl h = Ctl.addLock t)
      (hl : s.locked h = false) :
      Step N s { s with locked := Function.update s.locked h true,
                        ctl := Function.update s.ctl h (Ctl.addCrit t) }
  | doAdd (s : Sys) (h t : ℕ) (hh : h < N) (hc : s.ctl h = Ctl.addCrit t) :
      Step N s { s with slots := Function.update s.slots h (s.slots h ++ [t]),
                        locked := Function.update s.locked h false,
                        ctl := Function.update s.ctl h Ctl.idle }
  | startRemove (s : Sys) (h t : ℕ) (hh : h < N) (hc : s.ctl h = Ctl.idle) :
      Step N s { s with ctl := Function.update s.ctl h (Ctl.remLock t) }
  | lockRemove (s : Sys) (h t : ℕ) (hh : h < N) (hc : s.ctl h = Ctl.remLock t)
      (hl : s.locked h = false) :
      Step N s { s with locked := Function.update s.locked h true,
                        ctl := Function.update s.ctl h (Ctl.remCrit t) }
  | doRemove (s : Sys) (h t : ℕ) (hh : h < N) (hc : s.ctl h = Ctl.remCrit t) :
      Step N s { s with slots := Function.update s.slots h ((s.slots h).erase t),
                        held := Function.update s.held h
                          (if t ∈ s.slots h then t :: s.held h else s.held h),
                        locked := Function.update s.locked h false,
                        ctl := Function.update s.ctl h Ctl.idle }
  | startPut (s : Sys) (h t : ℕ) (preempt : Bool) (hh : h < N)
      (hc : s.ctl h = Ctl.idle) (ht : t ∈ s.held h) :
      Step N s { s with held := Function.update s.held h ((s.held h).erase t),
                        ctl := Function.update s.ctl h (Ctl.putLock t preempt) }
  | lockPut (s : Sys) (h t : ℕ) (preempt : Bool) (hh : h < N)
      (hc : s.ctl h = Ctl.putLock t preempt) (hl : s.locked h = false) :
      Step N s { s with locked := Function.update s.locked h true,
                        ctl := Function.update s.ctl h (Ctl.putCrit t preempt) }
  | doPut (s : Sys) (h t : ℕ) (preempt : Bool) (hh : h < N)
      (hc : s.ctl h = Ctl.putCrit t preempt) :
      Step N s { s with slots := Function.update s.slots h (s.slots h ++ [t]),
                        locked := Function.update s.locked h false,
                        ctl := Function.update s.ctl h Ctl.idle }

/-- Reachability: any finite interleaving of transitions. -/
def Reach (N : ℕ) : Sys → Sys → Prop :=
  Relation.ReflTransGen (Step N)

/-- Splitting the system total at one hart index. -/
theorem allTasks_split_one {N h : ℕ} (hh : h < N) (s : Sys) :
    allTasks N s = hartTasks s h + ((Finset.range N).erase h).sum (hartTasks s) :=
  (Finset.add_sum_erase _ _ (Finset.mem_range.mpr hh)).symm

/-- Splitting the system total at two distinct hart indices. -/
theorem allTasks_split_two {N h i : ℕ} (hh : h < N) (hi : i < N) (hne : i ≠ h)
    (s : Sys) :
    allTasks N s = hartTasks s h + hartTasks s i +
      (((Finset.range N).erase h).erase i).sum (hartTasks s) := by
  rw [allTasks_split_one hh s, add_assoc]
  congr 1
  exact (Finset.add_sum_erase _ _
    (Finset.mem_erase.mpr ⟨hne, Finset.mem_range.mpr hi⟩)).symm

/-- A transition that changes the contribution of no hart preserves the
total. -/
theorem allTasks_update_zero {N : ℕ} {s s2 : Sys}
    (hG : ∀ x, hartTasks s2 x = hartTasks s x) :
    allTasks N s2 = allTasks N s :=
  Finset.sum_congr rfl (fun x _ => hG x)

/-- A transition that shuffles tasks within one hart preserves the total. -/
theorem allTasks_update_one {N h : ℕ} (hh : h < N) {s s2 : Sys}
    (hoff : ∀ x, x ≠ h → hartTasks s2 x = hartTasks s x)
    (hat : hartTasks s2 h = hartTasks s h) :
    allTasks N s2 = allTasks N s := by
  rw [allTasks_split_one hh s2, allTasks_split_one hh s, hat]
  congr 1
  exact Finset.sum_congr rfl (fun x hx => hoff x (Finset.mem_erase.mp hx).1)

/-- A transition that moves tasks between two harts but preserves their
joint contribution preserves the total. -/
theorem allTasks_update_two {N h i : ℕ} (hh : h < N) (hi : i < N) (hne : i ≠ h)
    {s s2 : Sys}
    (hoff : ∀ x, x ≠ h → x ≠ i → hartTasks s2 x = hartTasks s x)
    (hsum : hartTasks s2 h + hartTasks s2 i = hartTasks s h + hartTasks s i) :
    allTasks N s2 = allTasks N s := by
  rw [allTasks_split_two hh hi hne s2, allTasks_split_two hh hi hne s, hsum]
  congr 1
  refine Finset.sum_congr rfl (fun x hx => ?_)
  have hx1 := (Finset.mem_erase.mp hx).1
  have hx2 := (Finset.mem_erase.mp (Finset.mem_erase.mp hx).2).1
  exact hoff x hx2 hx1

/-- Every transition either preserves the multiset of task handles present
in the system or inserts one fresh handle (a `startAdd`). -/
theorem step_allTasks {N : ℕ} {s s2 : Sys} (hs : Step N s s2) :
    allTasks N s2 = allTasks N s ∨
      ∃ t, t ∉ allTasks N s ∧ allTasks N s2 = t ::ₘ allTasks N s := by
  cases hs with
  | startPick h hh hc =>
      left
      refine allTasks_update_one hh (fun x hx => ?_) ?_
      · simp [hartTasks, Function.update_noteq hx]
      · simp [hartTasks, Function.update_same, ctlTasks, hc]
  | lockOwn h hh hc hl =>
      left
      refine allTasks_update_one hh (fun x hx => ?_) ?_
      · simp [hartTasks, Function.update_noteq hx]
      · simp [hartTasks, Function.update_same, ctlTasks, hc]
  | localPickSome h t rest hh hc hs =>
      left
      refine allTasks_update_one hh (fun x hx => ?_) ?_
      · simp [hartTasks, Function.update_noteq hx]
      · simp only [hartTasks, Function.update_same, hs, hc]
        simp [ctlTasks, ← Multiset.cons_coe, ← Multiset.singleton_add]
        abel
  | localPickNone h hh hc hs =>
      left
      refine allTasks_update_one hh (fun x hx => ?_) ?_
      · simp [hartTasks, Function.update_noteq hx]
      · simp [hartTasks, Function.update_same, ctlTasks, hc]
  | scanSkip h i hh hc hi hskip =>
      left
      refine allTasks_update_one hh (fun x hx => ?_) ?_
      · simp [hartTasks, Function.update_noteq hx]
      · simp [hartTasks, Function.update_same, ctlTasks, hc]
  | scanLock h i hh hc hi hne hl =>
      left
      refine allTasks_update_one hh (fun x hx => ?_) ?_
      · simp [hartTasks, Function.update_noteq hx]
      · simp [hartTasks, Function.update_same, ctlTasks, hc]
  | stealSome h i t rest hh hi hne hc hs =>
      left
      refine allTasks_update_two hh hi hne (fun x hx1 hx2 => ?_) ?_
      · simp [hartTasks, Function.update_noteq hx1, Function.update_noteq hx2]
      · simp only [hartTasks, Function.update_same,
          Function.update_noteq (Ne.symm hne), Function.update_noteq hne,
          hs, hc, ctlTasks]
        try simp only [← Multiset.cons_coe]
        try simp only [← Multiset.singleton_add]
        abel
  | stealNone h i hh hi hne hc hs =>
      left
      refine allTasks_update_two hh hi hne (fun x hx1 hx2 => ?_) ?_
      · simp [hartTasks, Function.update_noteq hx1, Function.update_noteq hx2]
      · simp [hartTasks, Function.update_same,
          Function.update_noteq (Ne.symm hne), Function.update_noteq hne,
          ctlTasks, hc]
  | scanDone h i hh hc hi =>
      left
      refine allTasks_update_one hh (fun x hx => ?_) ?_
      · simp [hartTasks, Function.update_noteq hx]
      · simp [hartTasks, Function.update_same, ctlTasks, hc]
  | startAdd h t hh hc hfresh =>
      right
      refine ⟨t, hfresh, ?_⟩
      rw [allTasks_split_one hh, allTasks_split_one hh]
      have hS : ((Finset.range N).erase h).sum
          (hartTasks { s with ctl := Function.update s.ctl h (Ctl.addLock t) }) =
          ((Finset.range N).erase h).sum (hartTasks s) :=
        Finset.sum_congr rfl (fun x hx => by
          simp [hartTasks, Function.update_noteq (Finset.mem_erase.mp hx).1])
      rw [hS]
      simp [hartTasks, Function.update_same, ctlTasks, hc,
        ← Multiset.singleton_add]
      abel
  | lockAdd h t hh hc hl =>
      left
      refine allTasks_update_one hh (fun x hx => ?_) ?_
      · simp [hartTasks, Function.update_noteq hx]
      · simp [hartTasks, Function.update_same, ctlTasks, hc]
  | doAdd h t hh hc =>
      left
      refine allTasks_update_one hh (fun x hx => ?_) ?_
      · simp [hartTasks, Function.update_noteq hx]
      · simp only [hartTasks, Function.update_same, hc]
        simp [ctlTasks, ← Multiset.coe_add, ← Multiset.singleton_add]
        abel
  | startRemove h t hh hc =>
      left
      refine allTasks_update_one hh (fun x hx => ?_) ?_
      · simp [hartTasks, Function.update_noteq hx]
      · simp [hartTasks, Function.update_same, ctlTasks, hc]
  | lockRemove h t hh hc hl =>
      left
      refine allTasks_update_one hh (fun x hx => ?_) ?_
      · simp [hartTasks, Function.update_noteq hx]
      · simp [hartTasks, Function.update_same, ctlTasks, hc]
  | doRemove h t hh hc =>
      left
      refine allTasks_update_one hh (fun x hx => ?_) ?_
      · simp [hartTasks, Function.update_noteq hx]
      · by_cases ht : t ∈ s.slots h
        · have hmem : t ∈ (↑(s.slots h) : Multiset ℕ) := by exact_mod_cast ht
          have key : (↑((s.slots h).erase t) : Multiset ℕ) + {t} = ↑(s.slots h) := by
            rw [← Multiset.coe_erase, add_comm, Multiset.singleton_add,
              Multiset.cons_erase hmem]
          simp only [hartTasks, Function.update_same, hc, if_pos ht, ctlTasks]
          try simp only [← Multiset.cons_coe]
          try simp only [← Multiset.singleton_add]
          rw [← key]
          abel
        · simp [hartTasks, Function.update_same, ctlTasks, hc,
            List.erase_of_not_mem ht, if_neg ht]
  | startPut h t preempt hh hc ht =>
      left
      refine allTasks_update_one hh (fun x hx => ?_) ?_
      · simp [hartTasks, Function.update_noteq hx]
      · have hmem : t ∈ (↑(s.held h) : Multiset ℕ) := by exact_mod_cast ht
        have key : (↑((s.held h).erase t) : Multiset ℕ) + {t} = ↑(s.held h) := by
          rw [← Multiset.coe_erase, add_comm, Multiset.singleton_add,
            Multiset.cons_erase hmem]
        simp only [hartTasks, Function.update_same, hc, ctlTasks]
        try simp only [← Multiset.cons_coe]
        try simp only [← Multiset.singleton_add]
        rw [← key]
        abel
  | lockPut h t preempt hh hc hl =>
      left
      refine allTasks_update_one hh (fun x hx => ?_) ?_
      · simp [hartTasks, Function.update_noteq hx]
      · simp [hartTasks, Function.update_same, ctlTasks, hc]
  | doPut h t preempt hh hc =>
      left
      refine allTasks_update_one hh (fun x hx => ?_) ?_
      · simp [hartTasks, Function.update_noteq hx]
      · simp only [hartTasks, Function.update_same, hc]
        simp [ctlTasks, ← Multiset.coe_add, ← Multiset.singleton_add]
        abel

/-- Claim C3 as amended: over every interleaving of `add_task`,
`pick_next_task`, `remove_task` and `put_prev_task` calls from the `N` harts
(callers following the ownership discipline), if the initial state has no
duplicate task handle then no reachable state has one — a handle is never in
two queues at once and never owned (picked) by two harts at once, so it
cannot be returned by two concurrent picks before an intervening
`put_prev_task` requeues it — and every initially present handle is still
present (no task is lost).  The claims further assertion that concurrent
picks deliver each queued task to exactly *one* caller is refuted by the
contention counterexample below: a task can be delivered to *no* caller. -/
theorem tasks_never_duplicated_or_lost {N : ℕ} {s0 s : Sys}
    (hr : Reach N s0 s) (h0 : (allTasks N s0).Nodup) :
    (allTasks N s).Nodup ∧ allTasks N s0 ≤ allTasks N s := by
  induction hr with
  | refl => exact ⟨h0, le_refl _⟩
  | tail hr1 hstep ih =>
      obtain ⟨hnd, hle⟩ := ih
      rcases step_allTasks hstep with heq | ⟨t, hf, heq⟩
      · rw [heq]
        exact ⟨hnd, hle⟩
      · rw [heq]
        exact ⟨Multiset.nodup_cons.mpr ⟨hf, hnd⟩,
          le_trans hle (Multiset.le_cons_self _ _)⟩

/-- A two-hart system with one task queued on hart 0, used by the witness. -/
def sysW : Sys :=
  ⟨fun h => if h = 0 then [5] else [], fun _ => false, fun _ => Ctl.idle,
   fun _ => [], fun _ => []⟩

/-- Witness for the amended C3 at a concrete state. -/
theorem tasks_never_duplicated_or_lost_w :
    (allTasks 2 sysW).Nodup ∧ allTasks 2 sysW ≤ allTasks 2 sysW :=
  tasks_never_duplicated_or_lost Relation.ReflTransGen.refl (by decide)

/-- Counterexample start state: two harts, tasks 0 and 1 both queued on hart
0 (so K = 2 tasks exist), all locks free, both harts idle. -/
def cex0 : Sys :=
  ⟨fun h => if h = 0 then [0, 1] else [], fun _ => false, fun _ => Ctl.idle,
   fun _ => [], fun _ => []⟩

/-- Hart 1 enters `pick_next_task`. -/
def cex1 : Sys := { cex0 with ctl := Function.update cex0.ctl 1 Ctl.pickLock }

/-- Hart 0 enters `pick_next_task`. -/
def cex2 : Sys := { cex1 with ctl := Function.update cex1.ctl 0 Ctl.pickLock }

/-- Hart 0 acquires its own lock. -/
def cex3 : Sys :=
  { cex2 with locked := Function.update cex2.locked 0 true,
              ctl := Function.update cex2.ctl 0 Ctl.pickLocal }

/-- Hart 1 acquires its own lock. -/
def cex4 : Sys :=
  { cex3 with locked := Function.update cex3.locked 1 true,
              ctl := Function.update cex3.ctl 1 Ctl.pickLocal }

/-- Hart 1 finds its own queue empty and starts the steal scan. -/
def cex5 : Sys :=
  { cex4 with locked := Function.update cex4.locked 1 false,
              ctl := Function.update cex4.ctl 1 (Ctl.pickScan 0) }

/-- Hart 1 try_locks slot 0 while hart 0 is inside it: skip. -/
def cex6 : Sys := { cex5 with ctl := Function.update cex5.ctl 1 (Ctl.pickScan 1) }

/-- Hart 1 skips its own index. -/
def cex7 : Sys := { cex6 with ctl := Function.update cex6.ctl 1 (Ctl.pickScan 2) }

/-- Hart 1 finishes its scan empty-handed and returns none. -/
def cex8 : Sys :=
  { cex7 with got := Function.update cex7.got 1 (none :: cex7.got 1),
              ctl := Function.update cex7.ctl 1 Ctl.idle }

/-- Hart 0 completes its local pick with task 0; task 1 stays queued. -/
def cex9 : Sys :=
  { cex8 with slots := Function.update cex8.slots 0 [1],
              locked := Function.update cex8.locked 0 false,
              held := Function.update cex8.held 0 (0 :: cex8.held 0),
              got := Function.update cex8.got 0 (some 0 :: cex8.got 0),
              ctl := Function.update cex8.ctl 0 Ctl.idle }

/-- Claim C3, counterexample to the exactly-one-caller part: from `cex0`
(K = 2 tasks, both on hart 0) both harts run one complete concurrent
`pick_next_task` (both end idle with a logged result).  Hart 1s `try_lock`
of slot 0 fails while hart 0 is inside its own critical section, so hart 1
returns none; hart 0 is delivered task 0; task 1 is delivered to no caller
at all (it merely stays queued), although it was present and hart 1s call
found nothing.  So a queued task is not delivered to exactly one of the
concurrent callers. -/
theorem pick_exact_delivery_cex :
    Reach 2 cex0 cex9 ∧
    cex9.ctl 0 = Ctl.idle ∧ cex9.ctl 1 = Ctl.idle ∧
    cex9.got 0 = [some 0] ∧ cex9.got 1 = [none] ∧
    cex9.slots 0 = [1] ∧ cex9.held 0 = [0] ∧ cex9.held 1 = [] ∧
    allTasks 2 cex0 = {0, 1} := by
  refine ⟨?_, rfl, rfl, rfl, rfl, rfl, rfl, rfl, by decide⟩
  have t1 : Step 2 cex0 cex1 := Step.startPick cex0 1 (by omega) rfl
  have t2 : Step 2 cex1 cex2 := Step.startPick cex1 0 (by omega) rfl
  have t3 : Step 2 cex2 cex3 := Step.lockOwn cex2 0 (by omega) rfl rfl
  have t4 : Step 2 cex3 cex4 := Step.lockOwn cex3 1 (by omega) rfl rfl
  have t5 : Step 2 cex4 cex5 := Step.localPickNone cex4 1 (by omega) rfl rfl
  have t6 : Step 2 cex5 cex6 :=
    Step.scanSkip cex5 1 0 (by omega) rfl (by omega) (Or.inr rfl)
  have t7 : Step 2 cex6 cex7 :=
    Step.scanSkip cex6 1 1 (by omega) rfl (by omega) (Or.inl rfl)
  have t8 : Step 2 cex7 cex8 := Step.scanDone cex7 1 2 (by omega) rfl (by omega)
  have t9 : Step 2 cex8 cex9 :=
    Step.localPickSome cex8 0 0 [1] (by omega) rfl rfl
  exact Relation.ReflTransGen.head t1 (Relation.ReflTransGen.head t2
    (Relation.ReflTransGen.head t3 (Relation.ReflTransGen.head t4
      (Relation.ReflTransGen.head t5 (Relation.ReflTransGen.head t6
        (Relation.ReflTransGen.head t7 (Relation.ReflTransGen.head t8
          (Relation.ReflTransGen.single t9))))))))

end SmpSys
